import Mathlib

/-!
Verification of the vdb vector database (src/src/vector_db.rs, src/src/storage.rs,
src/src/types.rs, src/src/metrics.rs, src/src/params.rs) against its specification.

Modelling conventions:
* Machine integers are Nat with explicit bounds (`% 2^w`) where overflow matters:
  usize/u64 values are reduced mod 2^64 by the on-disk codec, u32 values mod 2^32.
* f32 values are represented by their IEEE-754 bit patterns as Nat (< 2^32).  The
  metrics always produce non-negative, non-NaN floats, whose bit patterns are
  order-isomorphic to the float order, so comparisons on the bit patterns model the
  float comparisons performed by the code (Rust sorts by value, the stored distance
  unit already is the bit pattern).
* Strings (metadata label / description) are modelled by their UTF-8 byte lists.
  bincode's UTF-8 re-validation on read is not modelled; bytes round-trip unchanged.
* The single database file is modelled as a byte list (List Nat); the filesystem
  state at the database path as Option (List Nat).
* The hnsw graph index is external library code.  Its contents are modelled by the
  insertion-ordered list of vectors it owns; its nearest-neighbour query is taken as
  a parameter (NearestFn) wherever a claim holds for any deterministic query
  function, and instantiated with bruteNearest (modelled from the spec) where a
  claim depends on the behaviour the spec assigns to the index.
-/

/-- Distance metric enum from src/src/types.rs.  bincode serializes the serde
variant index (Cosine ↦ 0, Euclidean ↦ 1) as a u32; the repr(u8) discriminants
1/2 are not what is stored on disk. -/
inductive Metric where
  | Cosine
  | Euclidean
deriving DecidableEq

/-- Metadata from src/src/types.rs; label and description are modelled as their
UTF-8 byte lists. -/
structure Metadata where
  label : List Nat
  description : Option (List Nat)
deriving DecidableEq

instance : Inhabited Metadata := ⟨⟨[], none⟩⟩

/-- A search result from src/src/types.rs; distance holds the f32 bit pattern
(the code stores f32.from_bits of the u32 distance unit). -/
structure SearchResult where
  id : Nat
  distance : Nat
  metadata : Metadata
deriving DecidableEq

/-- On-disk header from src/src/storage.rs. -/
structure Header where
  magic : List Nat
  version : Nat
  metric : Metric
  dim : Nat
deriving DecidableEq

/-- A log record from src/src/storage.rs. -/
structure StoredEntry where
  id : Nat
  vector : List Nat
  metadata : Metadata
deriving DecidableEq

/-- The MAGIC constant b"VDB0" from src/src/storage.rs. -/
def MAGIC : List Nat := [86, 68, 66, 48]

/-- The format VERSION constant from src/src/storage.rs. -/
def VERSION : Nat := 1

/-- Search parameters from src/src/params.rs with their Default values. -/
structure Params where
  ef_construction : Nat
  ef_search : Nat
deriving DecidableEq

/-- Default impl for Params from src/src/params.rs. -/
def Params.default : Params := ⟨200, 50⟩

/-! ### The bincode (fixint, little-endian) codec used by Storage -/

/-- Little-endian fixed-width encoding of a natural number on w bytes. -/
def encodeNat : Nat → Nat → List Nat
  | 0, _ => []
  | w + 1, n => n % 256 :: encodeNat w (n / 256)

/-- Value of a little-endian byte list. -/
def leVal : List Nat → Nat
  | [] => 0
  | b :: bs => b + 256 * leVal bs

/-- Outcome of reading one value from the byte stream: success with the remaining
bytes, end-of-stream (bincode io UnexpectedEof), or a non-io deserialization
failure such as an invalid enum/option tag. -/
inductive PR (α : Type) where
  | ok (a : α) (rest : List Nat)
  | eof
  | bad
deriving DecidableEq

/-- Take exactly n bytes from the stream. -/
def takeN : Nat → List Nat → PR (List Nat)
  | 0, bytes => .ok [] bytes
  | _ + 1, [] => .eof
  | n + 1, b :: bs =>
    match takeN n bs with
    | .ok v rest => .ok (b :: v) rest
    | .eof => .eof
    | .bad => .bad

/-- Read a w-byte little-endian unsigned integer. -/
def readNatLE (w : Nat) (bytes : List Nat) : PR Nat :=
  match takeN w bytes with
  | .ok bs rest => .ok (leVal bs) rest
  | .eof => .eof
  | .bad => .bad

/-- Read count f32 values (4-byte bit patterns each). -/
def readF32s : Nat → List Nat → PR (List Nat)
  | 0, bytes => .ok [] bytes
  | n + 1, bytes =>
    match readNatLE 4 bytes with
    | .ok v rest =>
      match readF32s n rest with
      | .ok vs rest2 => .ok (v :: vs) rest2
      | .eof => .eof
      | .bad => .bad
    | .eof => .eof
    | .bad => .bad

/-- Read a length-prefixed byte string (bincode String layout: u64 length then
the raw bytes). -/
def readBytes (bytes : List Nat) : PR (List Nat) :=
  match readNatLE 8 bytes with
  | .ok len rest =>
    match takeN len rest with
    | .ok v rest2 => .ok v rest2
    | .eof => .eof
    | .bad => .bad
  | .eof => .eof
  | .bad => .bad

/-- Read a Metadata record (label string, then Option description with a one-byte
tag: 0 = None, 1 = Some, anything else is an invalid tag). -/
def readMetadata (bytes : List Nat) : PR Metadata :=
  match readBytes bytes with
  | .ok label rest =>
    match rest with
    | [] => .eof
    | t :: rest2 =>
      if t = 0 then .ok ⟨label, none⟩ rest2
      else if t = 1 then
        match readBytes rest2 with
        | .ok d rest3 => .ok ⟨label, some d⟩ rest3
        | .eof => .eof
        | .bad => .bad
      else .bad
  | .eof => .eof
  | .bad => .bad

/-- Read one StoredEntry record (u64 id, u64 vector length, the f32s, metadata). -/
def readEntry (bytes : List Nat) : PR StoredEntry :=
  match readNatLE 8 bytes with
  | .ok id rest =>
    match readNatLE 8 rest with
    | .ok vlen rest2 =>
      match readF32s vlen rest2 with
      | .ok vec rest3 =>
        match readMetadata rest3 with
        | .ok md rest4 => .ok ⟨id, vec, md⟩ rest4
        | .eof => .eof
        | .bad => .bad
      | .eof => .eof
      | .bad => .bad
    | .eof => .eof
    | .bad => .bad
  | .eof => .eof
  | .bad => .bad

/-- Metric as stored on disk: the serde variant index, serialized by bincode as
a u32. -/
def metricTag : Metric → Nat
  | .Cosine => 0
  | .Euclidean => 1

/-- Read the header (4 magic bytes, u8 version, u32 metric tag, u32 dim).
An out-of-range metric tag is an invalid-tag failure, as in bincode. -/
def readHeader (bytes : List Nat) : PR Header :=
  match takeN 4 bytes with
  | .ok magic rest =>
    match rest with
    | [] => .eof
    | v :: rest2 =>
      match readNatLE 4 rest2 with
      | .ok mt rest3 =>
        match readNatLE 4 rest3 with
        | .ok dim rest4 =>
          if mt = 0 then .ok ⟨magic, v, .Cosine, dim⟩ rest4
          else if mt = 1 then .ok ⟨magic, v, .Euclidean, dim⟩ rest4
          else .bad
        | .eof => .eof
        | .bad => .bad
      | .eof => .eof
      | .bad => .bad
  | .eof => .eof
  | .bad => .bad

/-- Serialize a header (13 bytes when the magic has its 4 bytes). -/
def encodeHeader (h : Header) : List Nat :=
  h.magic ++ [h.version] ++ encodeNat 4 (metricTag h.metric) ++ encodeNat 4 h.dim

/-- Serialize a list of f32 bit patterns, 4 bytes each. -/
def encodeF32s : List Nat → List Nat
  | [] => []
  | x :: xs => encodeNat 4 x ++ encodeF32s xs

/-- Serialize an optional description (tag byte then string). -/
def encodeDesc : Option (List Nat) → List Nat
  | none => [0]
  | some d => 1 :: (encodeNat 8 d.length ++ d)

/-- Serialize one StoredEntry record. -/
def encodeEntry (e : StoredEntry) : List Nat :=
  encodeNat 8 e.id ++ encodeNat 8 e.vector.length ++ encodeF32s e.vector ++
    encodeNat 8 e.metadata.label.length ++ e.metadata.label ++
    encodeDesc e.metadata.description

/-- Serialize a record sequence. -/
def encodeEntries : List StoredEntry → List Nat
  | [] => []
  | e :: es => encodeEntry e ++ encodeEntries es

/-! ### Codec round-trip lemmas -/

theorem encodeNat_length (w n : Nat) : (encodeNat w n).length = w := by
  induction w generalizing n with
  | zero => rfl
  | succ w ih => simp [encodeNat, ih]

theorem takeN_append (l r : List Nat) : takeN l.length (l ++ r) = .ok l r := by
  induction l with
  | nil => rfl
  | cons b bs ih => simp [takeN, ih]

theorem leVal_encodeNat (w n : Nat) : leVal (encodeNat w n) = n % 256 ^ w := by
  induction w generalizing n with
  | zero => simp [encodeNat, leVal, Nat.mod_one]
  | succ w ih =>
    have h256 : (256 : Nat) ^ (w + 1) = 256 * 256 ^ w := by ring
    simp [encodeNat, leVal, ih, h256, Nat.mod_mul]

theorem readNatLE_encodeNat (w n : Nat) (r : List Nat) (h : n < 256 ^ w) :
    readNatLE w (encodeNat w n ++ r) = .ok n r := by
  have hl := encodeNat_length w n
  have := takeN_append (encodeNat w n) r
  rw [hl] at this
  simp [readNatLE, this, leVal_encodeNat, Nat.mod_eq_of_lt h]

theorem readF32s_encodeF32s (v r : List Nat) (h : ∀ x ∈ v, x < 2 ^ 32) :
    readF32s v.length (encodeF32s v ++ r) = .ok v r := by
  induction v with
  | nil => rfl
  | cons x xs ih =>
    have hx : x < 256 ^ 4 := by
      have : (256 : Nat) ^ 4 = 2 ^ 32 := by norm_num
      rw [this]; exact h x (by simp)
    have hxs : ∀ y ∈ xs, y < 2 ^ 32 := fun y hy => h y (by simp [hy])
    simp only [List.length_cons, encodeF32s, List.append_assoc, readF32s]
    simp [readNatLE_encodeNat 4 x _ hx, ih hxs]

theorem readBytes_encode (l r : List Nat) (h : l.length < 2 ^ 64) :
    readBytes (encodeNat 8 l.length ++ l ++ r) = .ok l r := by
  have hlen : l.length < 256 ^ 8 := by
    have : (256 : Nat) ^ 8 = 2 ^ 64 := by norm_num
    rw [this]; exact h
  simp only [readBytes, List.append_assoc]
  simp [readNatLE_encodeNat 8 l.length _ hlen, takeN_append]

/-- Validity of a StoredEntry for the machine-integer bounds of the source (the
source cannot even form larger values: ids are usize, lengths usize, vector
elements f32 bit patterns). -/
def ValidEntry (e : StoredEntry) : Prop :=
  e.id < 2 ^ 64 ∧ e.vector.length < 2 ^ 64 ∧ (∀ x ∈ e.vector, x < 2 ^ 32) ∧
    e.metadata.label.length < 2 ^ 64 ∧
    ∀ d, e.metadata.description = some d → d.length < 2 ^ 64

instance : DecidablePred ValidEntry := fun e => by
  unfold ValidEntry
  exact inferInstanceAs (Decidable _)

theorem readMetadata_encode (md : Metadata) (r : List Nat)
    (hl : md.label.length < 2 ^ 64)
    (hd : ∀ d, md.description = some d → d.length < 2 ^ 64) :
    readMetadata (encodeNat 8 md.label.length ++ md.label ++
      encodeDesc md.description ++ r) = .ok md r := by
  cases md with
  | mk label description =>
    cases description with
    | none =>
      simp only [readMetadata, encodeDesc, List.append_assoc]
      have hrt : readBytes (encodeNat 8 label.length ++ label ++ (0 :: r)) =
          .ok label (0 :: r) := readBytes_encode label (0 :: r) hl
      simp only [List.append_assoc] at hrt
      simp [hrt]
    | some d =>
      have hdl : d.length < 2 ^ 64 := hd d rfl
      simp only [readMetadata, encodeDesc, List.append_assoc]
      rw [show encodeNat 8 label.length ++ (label ++ ((1 :: (encodeNat 8 d.length ++ d)) ++ r)) =
            encodeNat 8 label.length ++ label ++ (1 :: (encodeNat 8 d.length ++ d ++ r)) by simp]
      rw [readBytes_encode label _ hl]
      have hrt : readBytes (encodeNat 8 d.length ++ d ++ r) = .ok d r :=
        readBytes_encode d r hdl
      simp only [List.append_assoc] at hrt ⊢
      simp [hrt]

theorem readEntry_encode (e : StoredEntry) (r : List Nat) (h : ValidEntry e) :
    readEntry (encodeEntry e ++ r) = .ok e r := by
  obtain ⟨hid, hvl, hvx, hll, hdl⟩ := h
  have hid' : e.id < 256 ^ 8 := by
    have : (256 : Nat) ^ 8 = 2 ^ 64 := by norm_num
    rw [this]; exact hid
  have hvl' : e.vector.length < 256 ^ 8 := by
    have : (256 : Nat) ^ 8 = 2 ^ 64 := by norm_num
    rw [this]; exact hvl
  have hmd := readMetadata_encode e.metadata r hll hdl
  have hvec := readF32s_encodeF32s e.vector
      (encodeNat 8 e.metadata.label.length ++ e.metadata.label ++
        encodeDesc e.metadata.description ++ r) hvx
  simp only [readEntry, encodeEntry, List.append_assoc]
  simp only [List.append_assoc] at hmd hvec
  simp [readNatLE_encodeNat 8 e.id _ hid', readNatLE_encodeNat 8 e.vector.length _ hvl',
    hvec, hmd]

/-! ### Storage (src/src/storage.rs) -/

/-- Entry-reading loop of Storage::open, fuel-indexed so that it stays
executable.  An UnexpectedEof io error from bincode (PR.eof) ends the loop
successfully; any other deserialization failure aborts the whole open. -/
def readEntriesGo : Nat → List Nat → Except String (List StoredEntry)
  | 0, _ => .error "deserialize error"
  | fuel + 1, bytes =>
    match readEntry bytes with
    | .eof => .ok []
    | .bad => .error "deserialize error"
    | .ok e rest =>
      match readEntriesGo fuel rest with
      | .ok es => .ok (e :: es)
      | .error s => .error s

/-- Reads all entry records of the log body.  A successful readEntry consumes at
least the 8 id bytes, so length-plus-one fuel can never run out. -/
def readEntries (bytes : List Nat) : Except String (List StoredEntry) :=
  readEntriesGo (bytes.length + 1) bytes

/-- Storage::create from src/src/storage.rs.  The source opens the path with
write+create+truncate OpenOptions, which succeeds whether or not the path
exists and truncates any existing file, then writes a fresh header with
dimension 0; the existing content is ignored. -/
def Storage.create (_existing : Option (List Nat)) (metric : Metric) :
    Except String (List Nat) :=
  .ok (encodeHeader ⟨MAGIC, VERSION, metric, 0⟩)

/-- Storage::open from src/src/storage.rs: deserialize the header (any failure
there, including end of file, is an error), check magic and version, then read
entry records until end of file. -/
def Storage.openLog (bytes : List Nat) :
    Except String (Header × List StoredEntry) :=
  match readHeader bytes with
  | .eof => .error "deserialize error"
  | .bad => .error "deserialize error"
  | .ok h rest =>
    if h.magic ≠ MAGIC then .error "invalid magic"
    else if h.version ≠ VERSION then .error "unsupported version"
    else
      match readEntries rest with
      | .ok es => .ok (h, es)
      | .error s => .error s

/-- Storage::append_entry from src/src/storage.rs: open for append and write
exactly one record. -/
def Storage.append_entry (file : List Nat) (e : StoredEntry) : List Nat :=
  file ++ encodeEntry e

/-- Storage::update_header from src/src/storage.rs: seek to offset 0 and
rewrite the fixed-size (13-byte) header in place. -/
def Storage.update_header (file : List Nat) (h : Header) : List Nat :=
  encodeHeader h ++ file.drop 13

/-! ### The database orchestrator (src/src/vector_db.rs) -/

/-- In-memory state of VectorDB (src/src/vector_db.rs).  indexVecs models the
hnsw index contents: the vectors it owns, in slot (insertion) order.  entries
and ids mirror the source fields; file is the on-disk log at the database
path.  The searcher field of the source is per-call scratch space of the hnsw
library and carries no observable state, so it is not modelled. -/
structure VectorDB where
  dim : Nat
  metric : Metric
  indexVecs : List (List Nat)
  entries : List (Nat × Metadata)
  ids : List Nat
  file : List Nat
deriving DecidableEq

/-- VectorDB::new_empty from src/src/vector_db.rs. -/
def VectorDB.new_empty (file : List Nat) (metric : Metric) (dim : Nat) :
    VectorDB :=
  { dim, metric, indexVecs := [], entries := [], ids := [], file }

/-- VectorDB::add_loaded from src/src/vector_db.rs: replay one stored record
into the in-memory state (no log writes).  Mirrors the mutable-self style of
the source: an error leaves the state it returns unchanged. -/
def VectorDB.add_loaded (db : VectorDB) (id : Nat) (vector : List Nat)
    (metadata : Metadata) : Option String × VectorDB :=
  if id ∈ db.ids then (some "duplicate id in file", db)
  else if db.dim = 0 then
    (none, { db with dim := vector.length,
                     indexVecs := db.indexVecs ++ [vector],
                     entries := db.entries ++ [(id, metadata)],
                     ids := db.ids ++ [id] })
  else if vector.length ≠ db.dim then (some "dimension mismatch", db)
  else
    (none, { db with indexVecs := db.indexVecs ++ [vector],
                     entries := db.entries ++ [(id, metadata)],
                     ids := db.ids ++ [id] })

/-- The replay loop of VectorDB::open: add_loaded for every stored entry in
order, aborting on the first error. -/
def VectorDB.replay (db : VectorDB) : List StoredEntry → Option String × VectorDB
  | [] => (none, db)
  | e :: rest =>
    match db.add_loaded e.id e.vector e.metadata with
    | (some s, db2) => (some s, db2)
    | (none, db2) => db2.replay rest

/-- VectorDB::open from src/src/vector_db.rs.  The filesystem state at the
path is `some bytes` (existing file) or `none` (fresh database). -/
def VectorDB.openDB (fs : Option (List Nat)) (metric : Metric) :
    Except String VectorDB :=
  match fs with
  | some bytes =>
    match Storage.openLog bytes with
    | .error e => .error e
    | .ok (header, stored) =>
      if header.metric ≠ metric then .error "Metric mismatch"
      else
        match (VectorDB.new_empty bytes metric header.dim).replay stored with
        | (some e, _) => .error e
        | (none, db) => .ok db
  | none =>
    match Storage.create none metric with
    | .error e => .error e
    | .ok file => .ok (VectorDB.new_empty file metric 0)

/-- A freshly created database (open of a non-existent path). -/
def VectorDB.fresh (metric : Metric) : VectorDB :=
  VectorDB.new_empty (encodeHeader ⟨MAGIC, VERSION, metric, 0⟩) metric 0

/-- VectorDB::add from src/src/vector_db.rs: duplicate-id check, then on the
first vector fix the dimension and rewrite the header in place, else reject a
dimension mismatch; on success insert into the index, append the record to the
log, push the entry and mark the id live. -/
def VectorDB.add (db : VectorDB) (id : Nat) (vector : List Nat)
    (metadata : Metadata) : Option String × VectorDB :=
  if id ∈ db.ids then (some "duplicate id", db)
  else if db.dim = 0 then
    let dim := vector.length
    let file := Storage.update_header db.file ⟨MAGIC, VERSION, db.metric, dim⟩
    (none, { db with dim,
                     indexVecs := db.indexVecs ++ [vector],
                     file := Storage.append_entry file ⟨id, vector, metadata⟩,
                     entries := db.entries ++ [(id, metadata)],
                     ids := db.ids ++ [id] })
  else if vector.length ≠ db.dim then (some "dimension mismatch", db)
  else
    (none, { db with indexVecs := db.indexVecs ++ [vector],
                     file := Storage.append_entry db.file ⟨id, vector, metadata⟩,
                     entries := db.entries ++ [(id, metadata)],
                     ids := db.ids ++ [id] })

/-- The nearest-neighbour query of the hnsw index, as the orchestrator calls
it: arguments are the index contents (vectors in slot order), the query, the
beam width ef, and the output buffer length; the result is the list of
(slot, distance-bit-pattern) neighbours, at most buffer-length many. -/
def NearestFn : Type :=
  List (List Nat) → List Nat → Nat → Nat → List (Nat × Nat)

/-- Lexicographic candidate order used by the modelled index: ascending
distance, ties broken by ascending slot (insertion order). -/
def candLe (a b : Nat × Nat) : Prop :=
  a.2 < b.2 ∨ (a.2 = b.2 ∧ a.1 ≤ b.1)

instance : DecidableRel candLe := fun a b => by
  unfold candLe
  exact inferInstanceAs (Decidable _)

instance : IsTotal (Nat × Nat) candLe where
  total a b := by
    unfold candLe
    omega

instance : IsTrans (Nat × Nat) candLe where
  trans a b c hab hbc := by
    unfold candLe at *
    omega

/-- Modelled from the spec: the hnsw crate's Hnsw::nearest is external library
code, absent from src/.  Section 4.2 of the spec fixes its contract — it
returns the k closest nodes by distance, ties broken by insertion order (slot
index ascending), and fewer than k when fewer nodes exist.  This model
realizes that contract exactly: all slots ranked by (distance, slot), the
first buffer-length many returned.  The beam width argument does not change
the result of this idealized index. -/
def bruteNearest (dist : List Nat → List Nat → Nat) : NearestFn :=
  fun vecs query _ef buf =>
    (List.insertionSort candLe
      ((List.range vecs.length).map (fun i => (i, dist query (vecs.getD i []))))).take buf

/-- Slot-to-result translation of VectorDB::search: look the slot up in the
co-indexed entry table and keep the distance bit pattern. -/
def toResult (db : VectorDB) (n : Nat × Nat) : SearchResult :=
  ⟨(db.entries.getD n.1 (0, default)).1, n.2, (db.entries.getD n.1 (0, default)).2⟩

/-- Result comparison of VectorDB::search: Rust's stable sort_by on the f32
distance (bit-pattern order coincides with the float order for the
non-negative distances the metrics produce). -/
def resLe (a b : SearchResult) : Prop := a.distance ≤ b.distance

instance : DecidableRel resLe := fun a b => by
  unfold resLe
  exact inferInstanceAs (Decidable _)

/-- VectorDB::search from src/src/vector_db.rs: validate the query dimension,
query the index with beam width k * 2 and an output buffer of length k, map
slots to results through the entry table, stable-sort by distance and truncate
to k. -/
def VectorDB.search (nf : NearestFn) (db : VectorDB) (query : List Nat)
    (k : Nat) : Except String (List SearchResult) :=
  if query.length ≠ db.dim then .error "dimension mismatch"
  else
    let found := nf db.indexVecs query (k * 2) k
    let results := found.map (toResult db)
    .ok ((List.insertionSort resLe results).take k)

/-- Modelled from the spec: VectorDB::remove is not present under src/ (only
tests/crud.rs and the CLI invoke it).  Section 4.4: it fails with not-found if
the id is not live; otherwise the implementation chooses
compaction-on-mutation — the entry is discarded, the graph index is rebuilt
from the surviving live entries in their original relative order, the id
leaves the live set, and the log is compacted to the surviving entries. -/
def VectorDB.remove (db : VectorDB) (id : Nat) : Option String × VectorDB :=
  if id ∉ db.ids then (some "not found", db)
  else
    let keep := (db.entries.zip db.indexVecs).filter (fun p => p.1.1 != id)
    let stored := keep.map (fun p => (⟨p.1.1, p.2, p.1.2⟩ : StoredEntry))
    (none, { db with entries := keep.map (fun p => p.1),
                     indexVecs := keep.map (fun p => p.2),
                     ids := db.ids.filter (fun x => x != id),
                     file := encodeHeader ⟨MAGIC, VERSION, db.metric, db.dim⟩ ++
                       encodeEntries stored })

/-- Modelled from the spec: VectorDB::update is not present under src/ (only
tests/crud.rs invokes it).  Section 4.4: it fails not-found if the id is
absent and dimension-mismatch if the vector disagrees with the fixed
dimension; otherwise the old value is replaced in place in the compacted entry
set via the same rebuild path, keeping slot order and the live-id set. -/
def VectorDB.update (db : VectorDB) (id : Nat) (vector : List Nat)
    (metadata : Metadata) : Option String × VectorDB :=
  if id ∉ db.ids then (some "not found", db)
  else if vector.length ≠ db.dim then (some "dimension mismatch", db)
  else
    let pairs := (db.entries.zip db.indexVecs).map
      (fun p => if p.1.1 = id then ((id, metadata), vector) else p)
    let stored := pairs.map (fun p => (⟨p.1.1, p.2, p.1.2⟩ : StoredEntry))
    (none, { db with entries := pairs.map (fun p => p.1),
                     indexVecs := pairs.map (fun p => p.2),
                     file := encodeHeader ⟨MAGIC, VERSION, db.metric, db.dim⟩ ++
                       encodeEntries stored })

/-- A sequence of VectorDB::add calls, stopping at the first failure. -/
def VectorDB.applyAdds (db : VectorDB) :
    List (Nat × List Nat × Metadata) → Option String × VectorDB
  | [] => (none, db)
  | (id, v, md) :: rest =>
    match db.add id v md with
    | (some s, db2) => (some s, db2)
    | (none, db2) => db2.applyAdds rest

/-! ### Log round-trip lemmas -/

/-- Validity of a header as the source itself writes it. -/
def ValidHeader (h : Header) : Prop :=
  h.magic = MAGIC ∧ h.version = VERSION ∧ h.dim < 2 ^ 32

instance : DecidablePred ValidHeader := fun h => by
  unfold ValidHeader
  exact inferInstanceAs (Decidable _)

theorem metricTag_lt (m : Metric) : metricTag m < 256 ^ 4 := by
  cases m <;> simp [metricTag]

theorem readHeader_encode (h : Header) (r : List Nat) (hm : h.magic.length = 4)
    (hd : h.dim < 2 ^ 32) : readHeader (encodeHeader h ++ r) = .ok h r := by
  have hdim : h.dim < 256 ^ 4 := by
    have : (256 : Nat) ^ 4 = 2 ^ 32 := by norm_num
    rw [this]; exact hd
  cases h with
  | mk magic version metric dim =>
    simp only at hm hdim
    have htake : takeN 4 (magic ++ ([version] ++ (encodeNat 4 (metricTag metric) ++
        (encodeNat 4 dim ++ r)))) = .ok magic ([version] ++ (encodeNat 4 (metricTag metric) ++
        (encodeNat 4 dim ++ r))) := by
      rw [show (4 : Nat) = magic.length from hm.symm]
      exact takeN_append magic _
    simp only [readHeader, encodeHeader, List.append_assoc]
    rw [htake]
    simp only [List.singleton_append]
    rw [readNatLE_encodeNat 4 (metricTag metric) _ (metricTag_lt metric)]
    cases metric <;> simp [metricTag, readNatLE_encodeNat 4 dim r hdim]

theorem readEntriesGo_encode (es : List StoredEntry) (t : List Nat) (fuel : Nat)
    (hfuel : es.length < fuel) (hval : ∀ e ∈ es, ValidEntry e)
    (ht : readEntry t = .eof) :
    readEntriesGo fuel (encodeEntries es ++ t) = .ok es := by
  induction es generalizing fuel with
  | nil =>
    cases fuel with
    | zero => omega
    | succ f => simp [readEntriesGo, encodeEntries, ht]
  | cons e es ih =>
    cases fuel with
    | zero => simp at hfuel
    | succ f =>
      have hv : ValidEntry e := hval e (by simp)
      have hre := readEntry_encode e (encodeEntries es ++ t) hv
      simp only [encodeEntries, List.append_assoc, readEntriesGo]
      rw [hre]
      have hlen : es.length < f := by simp at hfuel; omega
      have : readEntriesGo f (encodeEntries es ++ t) = .ok es :=
        ih f hlen (fun x hx => hval x (by simp [hx]))
      simp [this]

theorem readEntriesGo_encode_bad (es : List StoredEntry) (t : List Nat)
    (fuel : Nat) (hfuel : es.length < fuel) (hval : ∀ e ∈ es, ValidEntry e)
    (ht : readEntry t = .bad) :
    readEntriesGo fuel (encodeEntries es ++ t) = .error "deserialize error" := by
  induction es generalizing fuel with
  | nil =>
    cases fuel with
    | zero => omega
    | succ f => simp [readEntriesGo, encodeEntries, ht]
  | cons e es ih =>
    cases fuel with
    | zero => simp at hfuel
    | succ f =>
      have hv : ValidEntry e := hval e (by simp)
      have hre := readEntry_encode e (encodeEntries es ++ t) hv
      simp only [encodeEntries, List.append_assoc, readEntriesGo]
      rw [hre]
      have hlen : es.length < f := by simp at hfuel; omega
      have : readEntriesGo f (encodeEntries es ++ t) = .error "deserialize error" :=
        ih f hlen (fun x hx => hval x (by simp [hx]))
      simp [this]

theorem length_le_encodeEntries (es : List StoredEntry) :
    es.length ≤ (encodeEntries es).length := by
  induction es with
  | nil => simp [encodeEntries]
  | cons e es ih =>
    have h1 : 1 ≤ (encodeEntry e).length := by
      simp only [encodeEntry, List.length_append, encodeNat_length]
      omega
    simp only [encodeEntries, List.length_append, List.length_cons]
    omega

theorem readEntries_encode (es : List StoredEntry) (t : List Nat)
    (hval : ∀ e ∈ es, ValidEntry e) (ht : readEntry t = .eof) :
    readEntries (encodeEntries es ++ t) = .ok es := by
  apply readEntriesGo_encode es t _ _ hval ht
  have := length_le_encodeEntries es
  simp only [List.length_append]
  omega

theorem readEntries_encode_bad (es : List StoredEntry) (t : List Nat)
    (hval : ∀ e ∈ es, ValidEntry e) (ht : readEntry t = .bad) :
    readEntries (encodeEntries es ++ t) = .error "deserialize error" := by
  apply readEntriesGo_encode_bad es t _ _ hval ht
  have := length_le_encodeEntries es
  simp only [List.length_append]
  omega

theorem openLog_encode (h : Header) (es : List StoredEntry) (t : List Nat)
    (hh : ValidHeader h) (hval : ∀ e ∈ es, ValidEntry e)
    (ht : readEntry t = .eof) :
    Storage.openLog (encodeHeader h ++ (encodeEntries es ++ t)) = .ok (h, es) := by
  obtain ⟨hm, hv, hd⟩ := hh
  have hm4 : h.magic.length = 4 := by rw [hm]; rfl
  simp only [Storage.openLog]
  rw [readHeader_encode h _ hm4 hd]
  simp [hm, hv, readEntries_encode es t hval ht]

theorem readEntry_nil : readEntry [] = .eof := by rfl

/-! ### Replay reconstruction -/

/-- The in-memory state obtained by replaying a list of stored entries into an
empty database whose header fixed dim. -/
def dbOf (file : List Nat) (metric : Metric) (dim : Nat)
    (es : List StoredEntry) : VectorDB :=
  ⟨dim, metric, es.map (·.vector), es.map (fun e => (e.id, e.metadata)),
    es.map (·.id), file⟩

theorem replay_dbOf (file : List Nat) (m : Metric) (dim : Nat) (hdim : dim ≠ 0)
    (pre suf : List StoredEntry)
    (hnodup : ((pre ++ suf).map (·.id)).Nodup)
    (hlen : ∀ e ∈ suf, e.vector.length = dim) :
    (dbOf file m dim pre).replay suf = (none, dbOf file m dim (pre ++ suf)) := by
  induction suf generalizing pre with
  | nil => simp [VectorDB.replay]
  | cons e suf ih =>
    have hid : e.id ∉ List.map (fun x => x.id) pre := by
      intro hmem'
      have hnd := hnodup
      rw [List.map_append] at hnd
      exact (List.nodup_append.1 hnd).2.2 hmem' (by simp)
    have hlene : ¬ e.vector.length ≠ dim := by
      simpa using hlen e (by simp)
    have hstep : (dbOf file m dim pre).add_loaded e.id e.vector e.metadata =
        (none, dbOf file m dim (pre ++ [e])) := by
      simp [VectorDB.add_loaded, dbOf, hid, hdim, hlene, List.map_append]
    simp only [VectorDB.replay, hstep]
    have := ih (pre ++ [e])
      (by rw [List.append_assoc, List.singleton_append]; exact hnodup)
      (fun x hx => hlen x (by simp [hx]))
    simpa using this

/-- The record list a database state denotes: entries zipped with their
co-indexed vectors. -/
def storedOf (db : VectorDB) : List StoredEntry :=
  List.zipWith (fun p v => ⟨p.1, v, p.2⟩) db.entries db.indexVecs

theorem storedOf_entries (es : List (Nat × Metadata)) (vs : List (List Nat))
    (h : es.length = vs.length) :
    (List.zipWith (fun p v => (⟨p.1, v, p.2⟩ : StoredEntry)) es vs).map
      (fun e => (e.id, e.metadata)) = es := by
  induction es generalizing vs with
  | nil => simp
  | cons p es ih =>
    cases vs with
    | nil => simp at h
    | cons v vs =>
      simp only [List.zipWith_cons_cons, List.map_cons]
      exact congrArg _ (ih vs (by simpa using h))

theorem storedOf_vectors (es : List (Nat × Metadata)) (vs : List (List Nat))
    (h : es.length = vs.length) :
    (List.zipWith (fun p v => (⟨p.1, v, p.2⟩ : StoredEntry)) es vs).map
      (·.vector) = vs := by
  induction es generalizing vs with
  | nil => cases vs with
    | nil => simp
    | cons v vs => simp at h
  | cons p es ih =>
    cases vs with
    | nil => simp at h
    | cons v vs =>
      simp only [List.zipWith_cons_cons, List.map_cons]
      exact congrArg _ (ih vs (by simpa using h))

theorem storedOf_ids (es : List (Nat × Metadata)) (vs : List (List Nat))
    (h : es.length = vs.length) :
    (List.zipWith (fun p v => (⟨p.1, v, p.2⟩ : StoredEntry)) es vs).map
      (·.id) = es.map Prod.fst := by
  induction es generalizing vs with
  | nil => simp
  | cons p es ih =>
    cases vs with
    | nil => simp at h
    | cons v vs =>
      simp only [List.zipWith_cons_cons, List.map_cons]
      exact congrArg _ (ih vs (by simpa using h))

theorem encodeEntries_append (as bs : List StoredEntry) :
    encodeEntries (as ++ bs) = encodeEntries as ++ encodeEntries bs := by
  induction as with
  | nil => simp [encodeEntries]
  | cons a as ih => simp [encodeEntries, ih]

theorem encodeHeader_length (m : Metric) (d v : Nat) :
    (encodeHeader ⟨MAGIC, v, m, d⟩).length = 13 := by
  simp [encodeHeader, MAGIC, encodeNat_length]

/-! ### Invariant of a database produced by a successful add sequence -/

/-- State invariant maintained by successful VectorDB::add calls on a fresh
database once the dimension is fixed to a nonzero value. -/
structure InvAdds (m : Metric) (db : VectorDB) : Prop where
  dim_ne : db.dim ≠ 0
  dim_lt : db.dim < 2 ^ 32
  metric_eq : db.metric = m
  len_eq : db.entries.length = db.indexVecs.length
  vec_dims : ∀ v ∈ db.indexVecs, v.length = db.dim
  ids_eq : db.ids = db.entries.map Prod.fst
  ids_nodup : db.ids.Nodup
  valid : ∀ e ∈ storedOf db, ValidEntry e
  file_eq : db.file = encodeHeader ⟨MAGIC, VERSION, m, db.dim⟩ ++
    encodeEntries (storedOf db)

/-- Validity bounds for one add operation: the machine-integer bounds of its
stored record, and a vector short enough for the u32 header dimension. -/
def ValidOp (op : Nat × List Nat × Metadata) : Prop :=
  ValidEntry ⟨op.1, op.2.1, op.2.2⟩ ∧ op.2.1.length < 2 ^ 32

theorem storedOf_append (db : VectorDB) (id : Nat) (v : List Nat)
    (md : Metadata) (h : db.entries.length = db.indexVecs.length) :
    storedOf { db with indexVecs := db.indexVecs ++ [v],
                       entries := db.entries ++ [(id, md)],
                       ids := db.ids ++ [id],
                       file := Storage.append_entry db.file ⟨id, v, md⟩ } =
      storedOf db ++ [⟨id, v, md⟩] := by
  simp [storedOf, List.zipWith_append _ _ _ _ _ h]

theorem add_invariant (m : Metric) (db db' : VectorDB) (id : Nat)
    (v : List Nat) (md : Metadata) (hinv : InvAdds m db)
    (hval : ValidOp (id, v, md)) (hadd : db.add id v md = (none, db')) :
    InvAdds m db' := by
  by_cases hid : id ∈ db.ids
  · simp [VectorDB.add, hid] at hadd
  · by_cases hdim : v.length ≠ db.dim
    · simp [VectorDB.add, hid, hinv.dim_ne, hdim] at hadd
    · push_neg at hdim
      have hdb' : db' = { db with
          indexVecs := db.indexVecs ++ [v],
          file := Storage.append_entry db.file ⟨id, v, md⟩,
          entries := db.entries ++ [(id, md)],
          ids := db.ids ++ [id] } := by
        simp [VectorDB.add, hid, hinv.dim_ne, hdim] at hadd
        exact hadd.symm
      subst hdb'
      have hst := storedOf_append db id v md hinv.len_eq
      refine ⟨hinv.dim_ne, hinv.dim_lt, hinv.metric_eq, ?_, ?_, ?_, ?_, ?_, ?_⟩
      · simp [hinv.len_eq]
      · intro w hw
        rcases List.mem_append.1 hw with hw | hw
        · exact hinv.vec_dims w hw
        · simp only [List.mem_singleton] at hw
          subst hw; exact hdim
      · simp [hinv.ids_eq]
      · simp only [List.nodup_append]
        refine ⟨hinv.ids_nodup, List.nodup_singleton id, ?_⟩
        intro x hx hmem
        simp only [List.mem_singleton] at hmem
        subst hmem; exact hid hx
      · intro e he
        rw [hst] at he
        rcases List.mem_append.1 he with he | he
        · exact hinv.valid e he
        · simp only [List.mem_singleton] at he
          subst he; exact hval.1
      · rw [hst, encodeEntries_append]
        simp [Storage.append_entry, hinv.file_eq, encodeEntries]

theorem add_fresh_invariant (m : Metric) (id : Nat) (v : List Nat)
    (md : Metadata) (db' : VectorDB) (hv : v ≠ []) (hval : ValidOp (id, v, md))
    (hadd : (VectorDB.fresh m).add id v md = (none, db')) : InvAdds m db' := by
  have hvlen : v.length ≠ 0 := by simpa using hv
  have hdb' : db' = { VectorDB.fresh m with
      dim := v.length,
      indexVecs := [v],
      file := Storage.append_entry
        (Storage.update_header (VectorDB.fresh m).file
          ⟨MAGIC, VERSION, m, v.length⟩) ⟨id, v, md⟩,
      entries := [(id, md)],
      ids := [id] } := by
    simp [VectorDB.add, VectorDB.fresh, VectorDB.new_empty] at hadd
    exact hadd.symm
  subst hdb'
  have hdrop : (VectorDB.fresh m).file.drop 13 = [] := by
    have : (VectorDB.fresh m).file.length = 13 := encodeHeader_length m 0 VERSION
    simp [List.drop_eq_nil_iff, this]
  refine ⟨hvlen, hval.2, rfl, by simp, ?_, by simp, by simp, ?_, ?_⟩
  · intro w hw
    simp only [List.mem_singleton] at hw
    subst hw; rfl
  · intro e he
    simp only [storedOf, List.zipWith_cons_cons, List.zipWith_nil_right,
      List.mem_singleton] at he
    subst he; exact hval.1
  · simp [storedOf, Storage.append_entry, Storage.update_header, hdrop,
      encodeEntries]

theorem applyAdds_invariant (m : Metric) (db db' : VectorDB)
    (ops : List (Nat × List Nat × Metadata)) (hinv : InvAdds m db)
    (hval : ∀ op ∈ ops, ValidOp op)
    (hadd : db.applyAdds ops = (none, db')) : InvAdds m db' := by
  induction ops generalizing db with
  | nil => simp only [VectorDB.applyAdds] at hadd; injection hadd with _ h; rwa [← h]
  | cons op ops ih =>
    obtain ⟨id, v, md⟩ := op
    simp only [VectorDB.applyAdds] at hadd
    rcases hstep : db.add id v md with ⟨err, db2⟩
    rcases err with _ | s
    · rw [hstep] at hadd
      exact ih db2 (add_invariant m db db2 id v md hinv
        (hval _ (by simp)) hstep) (fun op hop => hval op (by simp [hop])) hadd
    · rw [hstep] at hadd
      simp at hadd

theorem openDB_of_invariant (m : Metric) (db : VectorDB) (hinv : InvAdds m db) :
    VectorDB.openDB (some db.file) m = .ok db := by
  have hlen := hinv.len_eq
  have hopen : Storage.openLog db.file =
      .ok (⟨MAGIC, VERSION, m, db.dim⟩, storedOf db) := by
    rw [hinv.file_eq]
    have := openLog_encode ⟨MAGIC, VERSION, m, db.dim⟩ (storedOf db) []
      ⟨rfl, rfl, hinv.dim_lt⟩ hinv.valid readEntry_nil
    simpa using this
  have hnodup : ((storedOf db).map (·.id)).Nodup := by
    have h3 := storedOf_ids db.entries db.indexVecs hlen
    have : (storedOf db).map (·.id) = db.entries.map Prod.fst := h3
    rw [this, ← hinv.ids_eq]
    exact hinv.ids_nodup
  have hlens : ∀ e ∈ storedOf db, e.vector.length = db.dim := by
    intro e he
    apply hinv.vec_dims
    have h2 := storedOf_vectors db.entries db.indexVecs hlen
    have : e.vector ∈ (storedOf db).map (·.vector) := List.mem_map_of_mem _ he
    rwa [show (storedOf db).map (·.vector) = db.indexVecs from h2] at this
  have hreplay := replay_dbOf db.file m db.dim hinv.dim_ne [] (storedOf db)
    (by simpa using hnodup) hlens
  have hfinal : dbOf db.file m db.dim (storedOf db) = db := by
    have h1 := storedOf_entries db.entries db.indexVecs hlen
    have h2 := storedOf_vectors db.entries db.indexVecs hlen
    have h3 := storedOf_ids db.entries db.indexVecs hlen
    have hm := hinv.metric_eq
    have hi := hinv.ids_eq
    cases db with
    | mk d mt iv en ids fl =>
      simp only [storedOf] at h1 h2 h3
      simp only at hm hi
      simp only [dbOf, storedOf]
      rw [h1, h2, h3, hm, hi]
  simp only [VectorDB.openDB, hopen]
  rw [if_neg (by simp : ¬ ((⟨MAGIC, VERSION, m, db.dim⟩ : Header).metric ≠ m))]
  have hne : VectorDB.new_empty db.file m db.dim = dbOf db.file m db.dim [] := rfl
  rw [hne]
  rw [show ((dbOf db.file m db.dim []).replay (storedOf db)) =
    (none, dbOf db.file m db.dim (storedOf db)) by simpa using hreplay]
  rw [hfinal]

theorem openDB_fresh (m : Metric) :
    VectorDB.openDB (some (VectorDB.fresh m).file) m = .ok (VectorDB.fresh m) := by
  cases m <;> rfl

/-- C1: the claim quantifies over all sequences of successful Add operations;
its round trip holds once every added vector is nonempty (and the values fit
their machine integer widths), which the amended claim requires — see the
counterexample for the empty-vector failure. -/
theorem c1_reopen_after_adds (m : Metric)
    (ops : List (Nat × List Nat × Metadata)) (db1 : VectorDB)
    (hval : ∀ op ∈ ops, ValidOp op) (hne : ∀ op ∈ ops, op.2.1 ≠ [])
    (hadd : (VectorDB.fresh m).applyAdds ops = (none, db1)) :
    VectorDB.openDB (some db1.file) m = .ok db1 := by
  cases ops with
  | nil =>
    simp only [VectorDB.applyAdds] at hadd
    injection hadd with _ h
    rw [← h]
    exact openDB_fresh m
  | cons op ops =>
    obtain ⟨id, v, md⟩ := op
    simp only [VectorDB.applyAdds] at hadd
    rcases hstep : (VectorDB.fresh m).add id v md with ⟨err, db2⟩
    rcases err with _ | s
    · rw [hstep] at hadd
      have hinv2 : InvAdds m db2 := add_fresh_invariant m id v md db2
        (hne (id, v, md) (by simp)) (hval (id, v, md) (by simp)) hstep
      have hinv1 : InvAdds m db1 := applyAdds_invariant m db2 db1 ops hinv2
        (fun op hop => hval op (by simp [hop])) hadd
      exact openDB_of_invariant m db1 hinv1
    · rw [hstep] at hadd
      simp at hadd

theorem replay_none_nodup (db db' : VectorDB) (es : List StoredEntry)
    (h : db.replay es = (none, db')) :
    (es.map (·.id)).Nodup ∧ ∀ x ∈ es.map (·.id), x ∉ db.ids := by
  induction es generalizing db with
  | nil => simp
  | cons e es ih =>
    simp only [VectorDB.replay] at h
    rcases hstep : db.add_loaded e.id e.vector e.metadata with ⟨err, db2⟩
    rcases err with _ | s
    · rw [hstep] at h
      have hid : e.id ∉ db.ids := by
        by_contra hmem
        simp [VectorDB.add_loaded, hmem] at hstep
      have hids2 : db2.ids = db.ids ++ [e.id] := by
        simp only [VectorDB.add_loaded, if_neg hid] at hstep
        by_cases hd : db.dim = 0
        · rw [if_pos hd] at hstep
          injection hstep with _ h2
          rw [← h2]
        · rw [if_neg hd] at hstep
          by_cases hl : e.vector.length ≠ db.dim
          · rw [if_pos hl] at hstep
            exact absurd hstep (by simp)
          · rw [if_neg hl] at hstep
            injection hstep with _ h2
            rw [← h2]
      obtain ⟨hnd, hnotin⟩ := ih db2 h
      refine ⟨?_, ?_⟩
      · simp only [List.map_cons, List.nodup_cons]
        refine ⟨?_, hnd⟩
        intro hmem
        exact hnotin _ hmem (by simp [hids2])
      · intro x hx
        simp only [List.map_cons, List.mem_cons] at hx
        rcases hx with hx | hx
        · rw [hx]; exact hid
        · intro hmem
          exact hnotin x hx (by simp [hids2, hmem])
    · rw [hstep] at h
      simp at h

/-- C10: a log whose entry sequence carries two records with the same id makes
VectorDB::open fail — the replay's add_loaded rejects the second occurrence
(and a metric mismatch would only fail sooner), so open never yields a
database instance. -/
theorem c10_open_rejects_duplicate_log_ids (bytes : List Nat) (m : Metric)
    (h : Header) (es : List StoredEntry)
    (hopen : Storage.openLog bytes = .ok (h, es))
    (hdup : ¬ (es.map (·.id)).Nodup) :
    ∃ e, VectorDB.openDB (some bytes) m = .error e := by
  simp only [VectorDB.openDB, hopen]
  by_cases hm : h.metric ≠ m
  · rw [if_pos hm]
    exact ⟨_, rfl⟩
  · rw [if_neg hm]
    rcases hr : (VectorDB.new_empty bytes m h.dim).replay es with ⟨err, db2⟩
    rcases err with _ | s
    · exact absurd (replay_none_nodup _ db2 es hr).1 hdup
    · exact ⟨s, rfl⟩

/-! ### Well-formedness of reachable states -/

/-- The central co-indexing invariant: index and entries list have the same
length, and the live-id set is exactly the entry ids. -/
def WF (db : VectorDB) : Prop :=
  db.indexVecs.length = db.entries.length ∧ db.ids = db.entries.map Prod.fst

/-- States reachable through the public operations: open (of any filesystem
state), add, and the spec-modelled remove and update.  Search is read-only and
failed mutations return the unchanged state, so neither adds states. -/
inductive Reachable : VectorDB → Prop where
  | fresh (m : Metric) : Reachable (VectorDB.fresh m)
  | opened (bytes : List Nat) (m : Metric) (db : VectorDB) :
      VectorDB.openDB (some bytes) m = .ok db → Reachable db
  | add (db db' : VectorDB) (id : Nat) (v : List Nat) (md : Metadata) :
      Reachable db → db.add id v md = (none, db') → Reachable db'
  | remove (db db' : VectorDB) (id : Nat) :
      Reachable db → db.remove id = (none, db') → Reachable db'
  | update (db db' : VectorDB) (id : Nat) (v : List Nat) (md : Metadata) :
      Reachable db → db.update id v md = (none, db') → Reachable db'

theorem add_loaded_wf (db db' : VectorDB) (id : Nat) (v : List Nat)
    (md : Metadata) (err : Option String)
    (h : db.add_loaded id v md = (err, db')) (hwf : WF db) : WF db' := by
  unfold VectorDB.add_loaded at h
  by_cases h1 : id ∈ db.ids
  · rw [if_pos h1] at h
    injection h with _ h'
    rw [← h']; exact hwf
  · rw [if_neg h1] at h
    by_cases h2 : db.dim = 0
    · rw [if_pos h2] at h
      injection h with _ h'
      rw [← h']
      exact ⟨by simp [hwf.1], by simp [hwf.2]⟩
    · rw [if_neg h2] at h
      by_cases h3 : v.length ≠ db.dim
      · rw [if_pos h3] at h
        injection h with _ h'
        rw [← h']; exact hwf
      · rw [if_neg h3] at h
        injection h with _ h'
        rw [← h']
        exact ⟨by simp [hwf.1], by simp [hwf.2]⟩

theorem add_wf (db db' : VectorDB) (id : Nat) (v : List Nat)
    (md : Metadata) (err : Option String)
    (h : db.add id v md = (err, db')) (hwf : WF db) : WF db' := by
  unfold VectorDB.add at h
  by_cases h1 : id ∈ db.ids
  · rw [if_pos h1] at h
    injection h with _ h'
    rw [← h']; exact hwf
  · rw [if_neg h1] at h
    by_cases h2 : db.dim = 0
    · rw [if_pos h2] at h
      injection h with _ h'
      rw [← h']
      exact ⟨by simp [hwf.1], by simp [hwf.2]⟩
    · rw [if_neg h2] at h
      by_cases h3 : v.length ≠ db.dim
      · rw [if_pos h3] at h
        injection h with _ h'
        rw [← h']; exact hwf
      · rw [if_neg h3] at h
        injection h with _ h'
        rw [← h']
        exact ⟨by simp [hwf.1], by simp [hwf.2]⟩

theorem replay_wf (es : List StoredEntry) (db db' : VectorDB)
    (h : db.replay es = (none, db')) (hwf : WF db) : WF db' := by
  induction es generalizing db with
  | nil =>
    simp only [VectorDB.replay] at h
    injection h with _ h'
    rw [← h']; exact hwf
  | cons e es ih =>
    simp only [VectorDB.replay] at h
    rcases hstep : db.add_loaded e.id e.vector e.metadata with ⟨err, db2⟩
    rcases err with _ | s
    · rw [hstep] at h
      exact ih db2 h (add_loaded_wf db db2 _ _ _ _ hstep hwf)
    · rw [hstep] at h
      simp at h

theorem openDB_wf (bytes : List Nat) (m : Metric) (db : VectorDB)
    (h : VectorDB.openDB (some bytes) m = .ok db) : WF db := by
  simp only [VectorDB.openDB] at h
  split at h
  · exact absurd h (by simp)
  · split at h
    · exact absurd h (by simp)
    · split at h
      · exact absurd h (by simp)
      · rename_i hreplay
        have hdb : _ = db := Except.ok.inj h
        rw [← hdb]
        exact replay_wf _ _ _ hreplay ⟨rfl, rfl⟩

theorem filter_zip_fst (id : Nat) (es : List (Nat × Metadata))
    (vs : List (List Nat)) (h : es.length = vs.length) :
    ((es.zip vs).filter (fun p => p.1.1 != id)).map (fun p => p.1.1) =
      (es.map Prod.fst).filter (fun x => x != id) := by
  induction es generalizing vs with
  | nil => simp
  | cons p es ih =>
    cases vs with
    | nil => simp at h
    | cons v vs =>
      simp only [List.zip_cons_cons, List.map_cons, List.filter_cons]
      by_cases hp : (p.1 != id) = true
      · simp [hp, ih vs (by simpa using h)]
      · simp [hp, ih vs (by simpa using h)]

theorem remove_wf (db db' : VectorDB) (id : Nat) (err : Option String)
    (h : db.remove id = (err, db')) (hwf : WF db) : WF db' := by
  unfold VectorDB.remove at h
  by_cases h1 : id ∉ db.ids
  · rw [if_pos h1] at h
    injection h with _ h'
    rw [← h']; exact hwf
  · rw [if_neg h1] at h
    injection h with _ h'
    rw [← h']
    constructor
    · simp
    · show db.ids.filter (fun x => x != id) = _
      rw [hwf.2, ← filter_zip_fst id db.entries db.indexVecs hwf.1.symm]
      simp [Function.comp]

theorem remove_wf_entries (db db' : VectorDB) (id : Nat)
    (h : db.remove id = (none, db')) :
    db'.entries = ((db.entries.zip db.indexVecs).filter
      (fun p => p.1.1 != id)).map (fun p => p.1) := by
  unfold VectorDB.remove at h
  by_cases h1 : id ∉ db.ids
  · rw [if_pos h1] at h
    simp at h
  · rw [if_neg h1] at h
    injection h with _ h'
    rw [← h']

theorem update_wf (db db' : VectorDB) (id : Nat) (v : List Nat)
    (md : Metadata) (err : Option String)
    (h : db.update id v md = (err, db')) (hwf : WF db) : WF db' := by
  unfold VectorDB.update at h
  by_cases h1 : id ∉ db.ids
  · rw [if_pos h1] at h
    injection h with _ h'
    rw [← h']; exact hwf
  · rw [if_neg h1] at h
    by_cases h2 : v.length ≠ db.dim
    · rw [if_pos h2] at h
      injection h with _ h'
      rw [← h']; exact hwf
    · rw [if_neg h2] at h
      injection h with _ h'
      rw [← h']
      constructor
      · simp
      · show db.ids = _
        have h1 : ((db.entries.zip db.indexVecs).map
            (fun p => if p.1.1 = id then ((id, md), v) else p)).map
              (fun q => q.1.1) =
            (db.entries.zip db.indexVecs).map (fun p => p.1.1) := by
          rw [List.map_map]
          exact List.map_congr_left (fun p _ => by
            by_cases hp : p.1.1 = id <;> simp [hp])
        have h2 : (db.entries.zip db.indexVecs).map (fun p => p.1.1) =
            db.entries.map Prod.fst := by
          have hz := List.map_fst_zip db.entries db.indexVecs
            (le_of_eq hwf.1.symm)
          calc (db.entries.zip db.indexVecs).map (fun p => p.1.1)
              = ((db.entries.zip db.indexVecs).map Prod.fst).map Prod.fst := by
                rw [List.map_map]; rfl
            _ = db.entries.map Prod.fst := by rw [hz]
        rw [hwf.2, ← h2, ← h1]
        simp only [List.map_map]
        exact List.map_congr_left (fun p _ => rfl)

/-- C9: in every state reachable by open, add, remove, update (search is
read-only), the graph index and the entries list have the same length — the
vector in slot i belongs to the entry at position i, which in this model is
the statement that the two parallel lists stay aligned — and the live-id set
is exactly the set of entry ids; every mutation preserves this. -/
theorem c9_co_indexing_invariant (db : VectorDB) (h : Reachable db) :
    db.indexVecs.length = db.entries.length ∧
      db.ids = db.entries.map Prod.fst := by
  induction h with
  | fresh m => exact ⟨rfl, rfl⟩
  | opened bytes m db hopen => exact openDB_wf bytes m db hopen
  | add db db' id v md _ hstep ih => exact add_wf db db' id v md none hstep ih
  | remove db db' id _ hstep ih => exact remove_wf db db' id none hstep ih
  | update db db' id v md _ hstep ih =>
    exact update_wf db db' id v md none hstep ih

/-- C4: add with a live id always fails with the duplicate-id error and
returns the state unchanged: same entries, same live-id set, same file. -/
theorem c4_duplicate_id_rejected (db : VectorDB) (id : Nat) (v : List Nat)
    (md : Metadata) (h : id ∈ db.ids) :
    db.add id v md = (some "duplicate id", db) := by
  simp [VectorDB.add, h]

/-- C3 (amended): the first successful add sets dim to the added vector's
length; once dim is nonzero, an add of a fresh id with a mismatched vector
length and a search with a mismatched query length both fail with the
dimension-mismatch error and change no state; while dim is 0 the dimension
counts as unset, so an add of any length succeeds and re-fixes it (see the
counterexample). -/
theorem c3_dimension_fixation_amended :
    (∀ (db : VectorDB) (id : Nat) (v : List Nat) (md : Metadata)
        (db' : VectorDB), db.dim = 0 → db.add id v md = (none, db') →
        db'.dim = v.length) ∧
    (∀ (db : VectorDB) (id : Nat) (v : List Nat) (md : Metadata),
        db.dim ≠ 0 → id ∉ db.ids → v.length ≠ db.dim →
        db.add id v md = (some "dimension mismatch", db)) ∧
    (∀ (nf : NearestFn) (db : VectorDB) (q : List Nat) (k : Nat),
        q.length ≠ db.dim → db.search nf q k = .error "dimension mismatch") := by
  refine ⟨?_, ?_, ?_⟩
  · intro db id v md db' hdim hadd
    by_cases h1 : id ∈ db.ids
    · simp [VectorDB.add, h1] at hadd
    · simp only [VectorDB.add, if_neg h1, if_pos hdim] at hadd
      injection hadd with _ h'
      rw [← h']
  · intro db id v md hdim hid hlen
    simp [VectorDB.add, hid, hdim, hlen]
  · intro nf db q k hq
    simp [VectorDB.search, hq]

/-- C5 (amended): search queries the index with beam width k * 2 and an
output buffer of length k, then maps, sorts and truncates to k; no
effective_k is computed and the database has no ef_search parameter (see the
counterexample, which exhibits the beam width 2 where the claim demands
max(ef_search, effective_k * 2) = 50). -/
theorem c5_search_beam_width_amended (nf : NearestFn) (db : VectorDB)
    (q : List Nat) (k : Nat) (hq : q.length = db.dim) :
    db.search nf q k = .ok ((List.insertionSort resLe
      ((nf db.indexVecs q (k * 2) k).map (toResult db))).take k) := by
  simp [VectorDB.search, hq]

/-! ### Properties of the modelled index query -/

theorem bruteNearest_pairwise (d : List Nat → List Nat → Nat)
    (vecs : List (List Nat)) (q : List Nat) (ef buf : Nat) :
    (bruteNearest d vecs q ef buf).Pairwise candLe :=
  List.Pairwise.sublist (List.take_sublist _ _)
    (List.sorted_insertionSort candLe _)

theorem bruteNearest_slot_lt (d : List Nat → List Nat → Nat)
    (vecs : List (List Nat)) (q : List Nat) (ef buf : Nat) (x : Nat × Nat)
    (hx : x ∈ bruteNearest d vecs q ef buf) : x.1 < vecs.length := by
  have h1 : x ∈ List.insertionSort candLe
      ((List.range vecs.length).map (fun i => (i, d q (vecs.getD i [])))) :=
    List.mem_of_mem_take hx
  have h2 : x ∈ (List.range vecs.length).map
      (fun i => (i, d q (vecs.getD i []))) :=
    (List.perm_insertionSort candLe _).mem_iff.1 h1
  obtain ⟨i, hi, rfl⟩ := List.mem_map.1 h2
  simpa using List.mem_range.1 hi

theorem bruteNearest_length (d : List Nat → List Nat → Nat)
    (vecs : List (List Nat)) (q : List Nat) (ef buf : Nat) :
    (bruteNearest d vecs q ef buf).length = min buf vecs.length := by
  simp [bruteNearest, List.length_take, List.length_insertionSort]

theorem bruteNearest_fst_nodup (d : List Nat → List Nat → Nat)
    (vecs : List (List Nat)) (q : List Nat) (ef buf : Nat) :
    ((bruteNearest d vecs q ef buf).map Prod.fst).Nodup := by
  have hperm := List.perm_insertionSort candLe
    ((List.range vecs.length).map (fun i => (i, d q (vecs.getD i []))))
  have hbase : (((List.range vecs.length).map
      (fun i => (i, d q (vecs.getD i [])))).map Prod.fst).Nodup := by
    rw [List.map_map]
    rw [show (Prod.fst ∘ fun i => (i, d q (vecs.getD i []))) = id from rfl]
    rw [List.map_id]
    exact List.nodup_range vecs.length
  have hsorted : ((List.insertionSort candLe
      ((List.range vecs.length).map
        (fun i => (i, d q (vecs.getD i []))))).map Prod.fst).Nodup :=
    ((hperm.map Prod.fst).nodup_iff).2 hbase
  exact List.Nodup.sublist ((List.take_sublist _ _).map Prod.fst) hsorted

/-- C6 (spec-modelled index): with the index query modelled by the spec's
contract for the hnsw library, search returns exactly the image of a slot list
that is sorted by ascending distance with ties broken by ascending slot index,
and whose length is effective_k = min k (number of live entries); the final
stable sort by distance leaves it unchanged and the truncation is to that
length. -/
theorem c6_search_ordering (d : List Nat → List Nat → Nat) (db : VectorDB)
    (q : List Nat) (k : Nat)
    (hwf : db.indexVecs.length = db.entries.length)
    (hq : q.length = db.dim) :
    ∃ found : List (Nat × Nat),
      db.search (bruteNearest d) q k = .ok (found.map (toResult db)) ∧
      found.length = min k db.entries.length ∧
      found.Pairwise (fun a b => a.2 < b.2 ∨ (a.2 = b.2 ∧ a.1 < b.1)) ∧
      (found.map (toResult db)).Pairwise resLe := by
  refine ⟨bruteNearest d db.indexVecs q (k * 2) k, ?_, ?_, ?_, ?_⟩
  case refine_2 =>
    rw [bruteNearest_length, hwf]
  case refine_3 =>
    have hle := bruteNearest_pairwise d db.indexVecs q (k * 2) k
    have hne : (bruteNearest d db.indexVecs q (k * 2) k).Pairwise
        (fun a b : Nat × Nat => a.1 ≠ b.1) :=
      List.pairwise_map.1 (bruteNearest_fst_nodup d db.indexVecs q (k * 2) k)
    exact (hle.and hne).imp (by
      intro a b hab
      rcases hab.1 with h | h
      · exact Or.inl h
      · exact Or.inr ⟨h.1, lt_of_le_of_ne h.2 hab.2⟩)
  case refine_4 =>
    have hle := bruteNearest_pairwise d db.indexVecs q (k * 2) k
    exact List.pairwise_map.2 (hle.imp (by
      intro a b hab
      show (toResult db a).distance ≤ (toResult db b).distance
      rcases hab with h | h
      · exact le_of_lt h
      · exact le_of_eq h.1))
  case refine_1 =>
    have hle := bruteNearest_pairwise d db.indexVecs q (k * 2) k
    have hres : ((bruteNearest d db.indexVecs q (k * 2) k).map
        (toResult db)).Pairwise resLe :=
      List.pairwise_map.2 (hle.imp (by
        intro a b hab
        show (toResult db a).distance ≤ (toResult db b).distance
        rcases hab with h | h
        · exact le_of_lt h
        · exact le_of_eq h.1))
    have hsorted : List.insertionSort resLe
        ((bruteNearest d db.indexVecs q (k * 2) k).map (toResult db)) =
        (bruteNearest d db.indexVecs q (k * 2) k).map (toResult db) :=
      List.Sorted.insertionSort_eq hres
    have hlen : ((bruteNearest d db.indexVecs q (k * 2) k).map
        (toResult db)).length ≤ k := by
      rw [List.length_map, bruteNearest_length]
      omega
    have hcond : ¬ (q.length ≠ db.dim) := fun h => h hq
    simp only [VectorDB.search, if_neg hcond]
    rw [hsorted, List.take_of_length_le hlen]

theorem remove_entries_len (db db2 : VectorDB) (id : Nat)
    (h : db.remove id = (none, db2)) :
    db2.indexVecs.length = db2.entries.length := by
  unfold VectorDB.remove at h
  by_cases h1 : id ∉ db.ids
  · rw [if_pos h1] at h
    simp at h
  · rw [if_neg h1] at h
    injection h with _ h'
    rw [← h']
    simp

theorem remove_entries_ne (db db2 : VectorDB) (id : Nat)
    (h : db.remove id = (none, db2)) :
    ∀ p ∈ db2.entries, p.1 ≠ id := by
  intro p hp
  rw [remove_wf_entries db db2 id h] at hp
  obtain ⟨x, hx, rfl⟩ := List.mem_map.1 hp
  have := (List.mem_filter.1 hx).2
  simpa using this

/-- C2 (spec-modelled remove): after a successful Remove(id) — modelled from
the spec's compaction-on-mutation contract, since remove is absent from src/ —
no Search on the resulting state returns id, for every query vector and every
k, including k larger than the number of remaining live entries. -/
theorem c2_removed_id_never_returned (d : List Nat → List Nat → Nat)
    (db db2 : VectorDB) (id : Nat) (hrm : db.remove id = (none, db2))
    (q : List Nat) (k : Nat) (rs : List SearchResult)
    (hs : db2.search (bruteNearest d) q k = .ok rs) :
    ∀ r ∈ rs, r.id ≠ id := by
  by_cases hq : q.length ≠ db2.dim
  · simp [VectorDB.search, hq] at hs
  · simp only [VectorDB.search, if_neg hq] at hs
    have hrs : rs = (List.insertionSort resLe
        ((bruteNearest d db2.indexVecs q (k * 2) k).map (toResult db2))).take k := by
      have := Except.ok.inj hs
      exact this.symm
    intro r hr
    rw [hrs] at hr
    have hr1 : r ∈ List.insertionSort resLe
        ((bruteNearest d db2.indexVecs q (k * 2) k).map (toResult db2)) :=
      List.mem_of_mem_take hr
    have hr2 : r ∈ (bruteNearest d db2.indexVecs q (k * 2) k).map
        (toResult db2) :=
      (List.perm_insertionSort resLe _).mem_iff.1 hr1
    obtain ⟨n, hn, rfl⟩ := List.mem_map.1 hr2
    have hlt : n.1 < db2.entries.length := by
      have := bruteNearest_slot_lt d db2.indexVecs q (k * 2) k n hn
      rwa [remove_entries_len db db2 id hrm] at this
    have hmem : db2.entries.getD n.1 (0, default) ∈ db2.entries := by
      rw [List.getD_eq_getElem db2.entries (0, default) hlt]
      exact List.getElem_mem hlt
    exact remove_entries_ne db db2 id hrm _ hmem

/-! ### Storage create/open contracts -/

theorem readNatLE_encodeNat_mod (w n : Nat) (r : List Nat) :
    readNatLE w (encodeNat w n ++ r) = .ok (n % 256 ^ w) r := by
  have hl := encodeNat_length w n
  have ht := takeN_append (encodeNat w n) r
  rw [hl] at ht
  simp [readNatLE, ht, leVal_encodeNat]

theorem readHeader_encode_mod (h : Header) (r : List Nat)
    (hm : h.magic.length = 4) :
    readHeader (encodeHeader h ++ r) =
      .ok ⟨h.magic, h.version, h.metric, h.dim % 2 ^ 32⟩ r := by
  have h32 : (256 : Nat) ^ 4 = 2 ^ 32 := by norm_num
  cases h with
  | mk magic version metric dim =>
    simp only at hm
    have htake : takeN 4 (magic ++ ([version] ++ (encodeNat 4 (metricTag metric) ++
        (encodeNat 4 dim ++ r)))) = .ok magic ([version] ++
        (encodeNat 4 (metricTag metric) ++ (encodeNat 4 dim ++ r))) := by
      rw [show (4 : Nat) = magic.length from hm.symm]
      exact takeN_append magic _
    simp only [readHeader, encodeHeader, List.append_assoc]
    rw [htake]
    simp only [List.singleton_append]
    rw [readNatLE_encodeNat 4 (metricTag metric) _ (metricTag_lt metric)]
    cases metric <;>
      simp [metricTag, readNatLE_encodeNat_mod 4 dim r, h32]

theorem openLog_encode_bad (h : Header) (es : List StoredEntry) (t : List Nat)
    (hh : ValidHeader h) (hval : ∀ e ∈ es, ValidEntry e)
    (ht : readEntry t = .bad) :
    Storage.openLog (encodeHeader h ++ (encodeEntries es ++ t)) =
      .error "deserialize error" := by
  obtain ⟨hm, hv, hd⟩ := hh
  have hm4 : h.magic.length = 4 := by rw [hm]; rfl
  simp only [Storage.openLog]
  rw [readHeader_encode h _ hm4 hd]
  simp [hm, hv, readEntries_encode_bad es t hval ht]

/-- C7 (amended): Storage::create writes a fresh header with dimension 0 and
the requested metric whether or not the path already exists — the source opens
with write+create+truncate options, which truncate an existing file instead of
failing (see the counterexample); the created file opens as an empty log.
The database-open caller invokes create only when the path does not exist. -/
theorem c7_create_writes_fresh_header (fs : Option (List Nat)) (m : Metric) :
    ∃ file, Storage.create fs m = .ok file ∧
      Storage.openLog file = .ok (⟨MAGIC, VERSION, m, 0⟩, []) := by
  refine ⟨encodeHeader ⟨MAGIC, VERSION, m, 0⟩, rfl, ?_⟩
  have := openLog_encode ⟨MAGIC, VERSION, m, 0⟩ [] []
    ⟨rfl, rfl, by norm_num⟩ (fun e he => absurd he (List.not_mem_nil e))
    readEntry_nil
  simpa [encodeEntries] using this

/-- C8 (amended): open rejects a magic mismatch and an unsupported version;
the record loop ends successfully at end of data whether the trailing bytes
are empty (a record boundary) or a truncated record prefix — bincode's
UnexpectedEof is treated as the natural end of the log in both cases, keeping
the entries read so far — while a non-eof deserialization failure (such as an
invalid option or enum tag) makes open return an error. -/
theorem c8_open_contract :
    (∀ (h : Header) (r : List Nat), h.magic.length = 4 → h.magic ≠ MAGIC →
        Storage.openLog (encodeHeader h ++ r) = .error "invalid magic") ∧
    (∀ (h : Header) (r : List Nat), h.magic = MAGIC → h.version ≠ VERSION →
        Storage.openLog (encodeHeader h ++ r) = .error "unsupported version") ∧
    (∀ (h : Header) (es : List StoredEntry) (t : List Nat), ValidHeader h →
        (∀ e ∈ es, ValidEntry e) → readEntry t = .eof →
        Storage.openLog (encodeHeader h ++ (encodeEntries es ++ t)) =
          .ok (h, es)) ∧
    (∀ (h : Header) (es : List StoredEntry) (t : List Nat), ValidHeader h →
        (∀ e ∈ es, ValidEntry e) → readEntry t = .bad →
        Storage.openLog (encodeHeader h ++ (encodeEntries es ++ t)) =
          .error "deserialize error") := by
  refine ⟨?_, ?_, openLog_encode, openLog_encode_bad⟩
  · intro h r hm hmag
    simp only [Storage.openLog]
    rw [readHeader_encode_mod h r hm]
    simp [hmag]
  · intro h r hmag hver
    have hm4 : h.magic.length = 4 := by rw [hmag]; rfl
    simp only [Storage.openLog]
    rw [readHeader_encode_mod h r hm4]
    simp [hmag, hver]

/-! ### Concrete instances: counterexamples and witnesses -/

instance : DecidablePred ValidOp := fun op => by
  unfold ValidOp
  exact inferInstanceAs (Decidable _)

/-- A small concrete database used by the witnesses: one live entry, id 1,
vector [4], dimension 1. -/
def sampleDB : VectorDB := ((VectorDB.fresh .Cosine).add 1 [4] ⟨[], none⟩).2

/-- An index query that reports, as its only result's distance, the beam width
it was invoked with; used to observe the beam width search passes down. -/
def probeNf : NearestFn := fun _ _ ef _ => [(0, ef)]

/-- A log whose entry sequence stores id 1 twice. -/
def dupBytes : List Nat :=
  encodeHeader ⟨MAGIC, VERSION, .Cosine, 1⟩ ++
    encodeEntries [⟨1, [7], ⟨[], none⟩⟩, ⟨1, [8], ⟨[], none⟩⟩]

/-- C1 counterexample: from a fresh database, add of the empty vector under id
1 succeeds (leaving dim = 0, the unset sentinel) and add of [7] under id 2
then also succeeds (fixing dim = 1 and rewriting the header); reopening the
resulting file fails with a dimension mismatch while replaying the empty
vector against the stored dimension 1, so the claimed round trip breaks. -/
theorem c1_counterexample :
    ((VectorDB.fresh .Cosine).applyAdds
      [(1, [], ⟨[], none⟩), (2, [7], ⟨[], none⟩)]).1 = none ∧
    VectorDB.openDB
      (some ((VectorDB.fresh .Cosine).applyAdds
        [(1, [], ⟨[], none⟩), (2, [7], ⟨[], none⟩)]).2.file) .Cosine =
      .error "dimension mismatch" :=
  ⟨rfl, rfl⟩

/-- C1 witness: a concrete two-add run round-trips. -/
theorem c1_witness :
    VectorDB.openDB (some ((VectorDB.fresh .Cosine).applyAdds
      [(1, [3], ⟨[], none⟩), (2, [5], ⟨[], none⟩)]).2.file) .Cosine =
    .ok ((VectorDB.fresh .Cosine).applyAdds
      [(1, [3], ⟨[], none⟩), (2, [5], ⟨[], none⟩)]).2 :=
  c1_reopen_after_adds .Cosine [(1, [3], ⟨[], none⟩), (2, [5], ⟨[], none⟩)] _
    (by decide) (by decide) rfl

/-- C2 witness: adds of ids 1 and 2, remove of 1, then a search with k = 5
(larger than the single remaining live entry) returns a result whose id is
not the removed id 1. -/
theorem c2_witness : (⟨2, 0, ⟨[], none⟩⟩ : SearchResult).id ≠ 1 :=
  c2_removed_id_never_returned (fun _ _ => 0)
    (((VectorDB.fresh .Euclidean).add 1 [10] ⟨[], none⟩).2.add 2 [20]
      ⟨[], none⟩).2 _ 1 rfl [9] 5 _ rfl ⟨2, 0, ⟨[], none⟩⟩ (by decide)

/-- C3 counterexample: a first successful add of the empty vector fixes D = 0;
a second add with a vector of length 1 ≠ D then succeeds instead of failing
with a dimension mismatch, because dim = 0 doubles as the unset sentinel. -/
theorem c3_counterexample :
    ((VectorDB.fresh .Cosine).add 1 [] ⟨[], none⟩).1 = none ∧
    ((VectorDB.fresh .Cosine).add 1 [] ⟨[], none⟩).2.dim = 0 ∧
    (((VectorDB.fresh .Cosine).add 1 [] ⟨[], none⟩).2.add 2 [7]
      ⟨[], none⟩).1 = none ∧
    ([7] : List Nat).length ≠ 0 := by
  decide

/-- C3 witness: on a dimension-1 database, an add of a length-2 vector under a
fresh id fails with the dimension mismatch and leaves the state unchanged. -/
theorem c3_witness :
    sampleDB.add 2 [5, 6] ⟨[], none⟩ = (some "dimension mismatch", sampleDB) :=
  c3_dimension_fixation_amended.2.1 sampleDB 2 [5, 6] ⟨[], none⟩
    (by decide) (by decide) (by decide)

/-- C4 witness: a second add of the live id 1 fails with the duplicate-id
error and returns the unchanged state. -/
theorem c4_witness :
    sampleDB.add 1 [4] ⟨[], none⟩ = (some "duplicate id", sampleDB) :=
  c4_duplicate_id_rejected sampleDB 1 [4] ⟨[], none⟩ (by decide)

/-- C5 counterexample: a probe index query exposes the beam width search
passes down: with k = 1 on a one-entry database it is k * 2 = 2, not
max(ef_search, effective_k * 2) = max 50 2 = 50 under the crate's default
ef_search — the database instance has no ef_search parameter at all. -/
theorem c5_counterexample :
    sampleDB.search probeNf [9] 1 = .ok [⟨1, 2, ⟨[], none⟩⟩] ∧
    (2 : Nat) ≠ max Params.default.ef_search (min 1 1 * 2) :=
  ⟨rfl, by decide⟩

/-- C5 witness: the amended beam-width equation at a concrete search. -/
theorem c5_witness :
    sampleDB.search probeNf [9] 3 = .ok ((List.insertionSort resLe
      ((probeNf sampleDB.indexVecs [9] (3 * 2) 3).map
        (toResult sampleDB))).take 3) :=
  c5_search_beam_width_amended probeNf sampleDB [9] 3 (by decide)

/-- C6 witness: the ordering theorem at a concrete database and search. -/
theorem c6_witness :
    ∃ found : List (Nat × Nat),
      sampleDB.search (bruteNearest (fun _ _ => 0)) [9] 2 =
        .ok (found.map (toResult sampleDB)) ∧
      found.length = min 2 sampleDB.entries.length ∧
      found.Pairwise (fun a b => a.2 < b.2 ∨ (a.2 = b.2 ∧ a.1 < b.1)) ∧
      (found.map (toResult sampleDB)).Pairwise resLe :=
  c6_search_ordering (fun _ _ => 0) sampleDB [9] 2 (by decide) (by decide)

/-- C7 counterexample: create at a path holding [9, 9, 9] succeeds and
replaces the content with the fresh header — it neither fails nor preserves
the existing file, contradicting the claim that create fails whenever the
path exists. -/
theorem c7_counterexample :
    Storage.create (some [9, 9, 9]) .Cosine =
      .ok (encodeHeader ⟨MAGIC, VERSION, .Cosine, 0⟩) ∧
    encodeHeader ⟨MAGIC, VERSION, .Cosine, 0⟩ ≠ [9, 9, 9] :=
  ⟨rfl, by decide⟩

/-- C8 counterexample: a log consisting of a valid header followed by three
stray bytes — a record truncated in the middle of its id field, not a record
boundary — opens successfully with zero entries instead of returning an
error, because the UnexpectedEof raised mid-record is treated as the end of
the log. -/
theorem c8_counterexample :
    Storage.openLog (encodeHeader ⟨MAGIC, VERSION, .Cosine, 0⟩ ++ [0, 0, 0]) =
      .ok (⟨MAGIC, VERSION, .Cosine, 0⟩, []) ∧
    readEntry [0, 0, 0] = .eof ∧ ([0, 0, 0] : List Nat) ≠ [] :=
  ⟨rfl, rfl, by decide⟩

/-- C8 witness: a valid header, one valid record, and a truncated tail open
successfully with exactly the intact record. -/
theorem c8_witness :
    Storage.openLog (encodeHeader ⟨MAGIC, VERSION, .Cosine, 1⟩ ++
      (encodeEntries [⟨1, [7], ⟨[], none⟩⟩] ++ [0, 0, 0])) =
      .ok (⟨MAGIC, VERSION, .Cosine, 1⟩, [⟨1, [7], ⟨[], none⟩⟩]) :=
  c8_open_contract.2.2.1 ⟨MAGIC, VERSION, .Cosine, 1⟩ [⟨1, [7], ⟨[], none⟩⟩]
    [0, 0, 0] (by decide) (by decide) rfl

/-- C9 witness: the invariant at the freshly created database. -/
theorem c9_witness :
    (VectorDB.fresh .Cosine).indexVecs.length =
        (VectorDB.fresh .Cosine).entries.length ∧
      (VectorDB.fresh .Cosine).ids =
        (VectorDB.fresh .Cosine).entries.map Prod.fst :=
  c9_co_indexing_invariant (VectorDB.fresh .Cosine) (Reachable.fresh .Cosine)

/-- C10 witness: opening the concrete log storing id 1 twice fails. -/
theorem c10_witness :
    ∃ e, VectorDB.openDB (some dupBytes) .Cosine = .error e :=
  c10_open_rejects_duplicate_log_ids dupBytes .Cosine _ _ rfl (by decide)
